import Mathlib

/-!
Shallow embedding of the hierarchical tick-driven timing wheel from
`bevy-tick-timers` (`src/lib.rs`).

Timers are modelled by natural-number identifiers; a scheduled entry is the
pair `(ticks, timer)` exactly as the Rust code stores
`(usize, Box<dyn Stage>)`.  `usize` arithmetic is modelled on `ℕ`:
every arithmetic operation the code performs on in-range inputs
(`delay < 2 ^ 64`) stays far below `2 ^ 64`, so no wrap-around modelling is
needed except where noted.
-/

/-- `const MAX_INTERVAL: usize = 64;` -/
def MAX_INTERVAL : ℕ := 64

/-- One wheel level: a 64-slot ring of lists of `(ticks, timer)` pairs plus a
cursor.  Mirrors `struct TimingWheel`.  The fixed-size Rust array
`[Vec<(usize, Box<dyn Stage>)>; 64]` is modelled as a `List` of length 64
(the length is the well-formedness invariant `TimingWheel.wf`). -/
structure TimingWheel where
  current_tick : ℕ
  ring : List (List (ℕ × ℕ))
deriving DecidableEq, Repr

/-- `TimingWheel::default()`: cursor 0, all 64 slots empty. -/
def TimingWheel.mkDefault : TimingWheel :=
  ⟨0, List.replicate MAX_INTERVAL []⟩

/-- `TimingWheel::schedule(offset, ticks, timer)`:
`self.ring[(self.current_tick + offset) % MAX_INTERVAL].push((ticks, timer))`. -/
def TimingWheel.schedule (w : TimingWheel) (offset ticks timer : ℕ) : TimingWheel :=
  let index := (w.current_tick + offset) % MAX_INTERVAL
  { w with ring := w.ring.set index (w.ring.getD index [] ++ [(ticks, timer)]) }

/-- `TimingWheel::tick()`: move the current slot out, advance the cursor by one
modulo 64, return the moved-out slot together with the new wheel. -/
def TimingWheel.tick (w : TimingWheel) : List (ℕ × ℕ) × TimingWheel :=
  (w.ring.getD w.current_tick [],
   { current_tick := (w.current_tick + 1) % MAX_INTERVAL,
     ring := w.ring.set w.current_tick [] })

/-- Well-formedness: what the Rust types guarantee by construction
(`current_tick` stays in `[0, 64)`, the ring has exactly 64 slots). -/
def TimingWheel.wf (w : TimingWheel) : Prop :=
  w.current_tick < MAX_INTERVAL ∧ w.ring.length = MAX_INTERVAL

instance (w : TimingWheel) : Decidable w.wf := by
  unfold TimingWheel.wf; infer_instance

/-- Number of binary digits of `n`, computed with explicit fuel (structural
recursion); `bitlenAux fuel n` is correct whenever `n < 2 ^ fuel`. -/
def bitlenAux : ℕ → ℕ → ℕ
  | 0, _ => 0
  | fuel + 1, n => if n = 0 then 0 else bitlenAux fuel (n / 2) + 1

/-- Bit length of a `usize` value (`n < 2 ^ 64`). -/
def bitlen (n : ℕ) : ℕ := bitlenAux 64 n

/-- `usize::leading_zeros` for a 64-bit `usize`. -/
def leadingZeros64 (n : ℕ) : ℕ := 64 - bitlen n

/-- The level computation inside `Timers::after`:
`if after == 0 { 0 } else { (63 - after.leading_zeros()) / 6 }`
(the Rust expression is `u32` arithmetic; for `0 < after < 2 ^ 64` the
subtraction `63 - leading_zeros` never underflows, so `ℕ` subtraction is
faithful). -/
def levelOf (after : ℕ) : ℕ :=
  if after = 0 then 0 else (63 - leadingZeros64 after) / 6

/-- The `Timers` resource: four wheel levels.  Mirrors `struct Timers`. -/
structure Timers where
  level_0 : TimingWheel
  level_1 : TimingWheel
  level_2 : TimingWheel
  level_3 : TimingWheel
deriving DecidableEq, Repr

/-- `Timers::default()`: all four wheels fresh, all cursors 0. -/
def Timers.init : Timers :=
  ⟨.mkDefault, .mkDefault, .mkDefault, .mkDefault⟩

/-- `Timers::after(after, timer)`.  A `none` result models the
`panic!("timer interval too long")` arm, which aborts before touching any
wheel.

Faithfulness note on the shift amounts: in Rust, binary `-` binds tighter
than `>>`, so the source expressions `after >> 6 - 1`, `after >> 12 - 1`,
`after >> 18 - 1` shift by 5, 11 and 17 respectively; the embedding spells
the same shift amounts as `6 - 1`, `12 - 1`, `18 - 1` with the grouping the
Rust parser actually used. -/
def Timers.after (s : Timers) (after timer : ℕ) : Option Timers :=
  match levelOf after with
  | 0 => some { s with level_0 := s.level_0.schedule after after timer }
  | 1 => some { s with level_1 := s.level_1.schedule (after >>> (6 - 1)) after timer }
  | 2 => some { s with level_2 := s.level_2.schedule (after >>> (12 - 1)) after timer }
  | 3 => some { s with level_3 := s.level_3.schedule (after >>> (18 - 1)) after timer }
  | _ => none

/-- `Timers::now(timer)` = `self.after(0, timer)`. -/
def Timers.now (s : Timers) (timer : ℕ) : Option Timers :=
  s.after 0 timer

/-- The cascading `for` loop in `Timers::tick`:
`for (tick, item) in <drained> { wheel.schedule(tick + 1, tick, item) }`. -/
def cascadeInto (w : TimingWheel) (items : List (ℕ × ℕ)) : TimingWheel :=
  items.foldl (fun w p => w.schedule (p.1 + 1) p.1 p.2) w

/-- `Timers::tick()`: cascade level 3 → 2 → 1 → 0 when the finer cursors sit
at 63, then drain level 0's current slot and return its timers (dropping the
stored tick counts, as `.map(|(_, x)| x)` does). -/
def Timers.tick (s : Timers) : List ℕ × Timers :=
  let s1 :=
    if s.level_0.current_tick = 63 then
      let sa :=
        if s.level_1.current_tick = 63 then
          let sb :=
            if s.level_2.current_tick = 63 then
              let t3 := s.level_3.tick
              { s with
                  level_3 := t3.2
                  level_2 := cascadeInto s.level_2 t3.1 }
            else s
          let t2 := sb.level_2.tick
          { sb with
              level_2 := t2.2
              level_1 := cascadeInto sb.level_1 t2.1 }
        else s
      let t1 := sa.level_1.tick
      { sa with
          level_1 := t1.2
          level_0 := cascadeInto sa.level_0 t1.1 }
    else s
  let t0 := s1.level_0.tick
  (t0.1.map Prod.snd, { s1 with level_0 := t0.2 })

/-- The scheduler state after `n` calls of `Timers::tick`. -/
def Timers.tickN (s : Timers) : ℕ → Timers
  | 0 => s
  | n + 1 => (Timers.tick (s.tickN n)).2

/-- The list returned by the `k`-th call of `Timers::tick` (1-indexed). -/
def Timers.nthResult (s : Timers) (k : ℕ) : List ℕ :=
  (Timers.tick (s.tickN (k - 1))).1

/-- All results of the first `n` calls of `Timers::tick`, in call order,
together with the final state. -/
def Timers.run (s : Timers) : ℕ → List (List ℕ) × Timers
  | 0 => ([], s)
  | n + 1 =>
      let r := s.run n
      let t := r.2.tick
      (r.1 ++ [t.1], t.2)

/-- Well-formedness of the whole scheduler. -/
def Timers.wf (s : Timers) : Prop :=
  s.level_0.wf ∧ s.level_1.wf ∧ s.level_2.wf ∧ s.level_3.wf

instance (s : Timers) : Decidable s.wf := by
  unfold Timers.wf; infer_instance

/-- The spec's `bitlength`: one plus the position of the most significant set
bit (and 0 for 0).  This is exactly Mathlib's `Nat.size`; it is the
spec-side notion used to compare the spec's level formula against the
code's. -/
def bitlength (n : ℕ) : ℕ := Nat.size n

/-- Timer identifier `x` does not occur in the slot `sl`. -/
def slotFree (sl : List (ℕ × ℕ)) (x : ℕ) : Prop :=
  ∀ p ∈ sl, p.2 ≠ x

instance (sl : List (ℕ × ℕ)) (x : ℕ) : Decidable (slotFree sl x) := by
  unfold slotFree; infer_instance

/-- Timer identifier `x` occurs nowhere in the wheel `w`. -/
def wheelFree (w : TimingWheel) (x : ℕ) : Prop :=
  ∀ sl ∈ w.ring, slotFree sl x

instance (w : TimingWheel) (x : ℕ) : Decidable (wheelFree w x) := by
  unfold wheelFree; infer_instance

/-- Timer identifier `x` occurs in wheel `w` only in slot `m`: it is present
there and in no other slot. -/
def wheelOnlyAt (w : TimingWheel) (x m : ℕ) : Prop :=
  (∃ p ∈ w.ring.getD m [], p.2 = x) ∧ ∀ i, i ≠ m → slotFree (w.ring.getD i []) x

/-- Timer identifier `x` occurs nowhere in the scheduler `s`. -/
def timersFree (s : Timers) (x : ℕ) : Prop :=
  wheelFree s.level_0 x ∧ wheelFree s.level_1 x ∧ wheelFree s.level_2 x ∧
    wheelFree s.level_3 x

instance (s : Timers) (x : ℕ) : Decidable (timersFree s x) := by
  unfold timersFree; infer_instance

/-- Timer identifier `x` occurs in the scheduler only in slot `m` of the
level-0 wheel. -/
def onlyAt0 (s : Timers) (x m : ℕ) : Prop :=
  wheelOnlyAt s.level_0 x m ∧ wheelFree s.level_1 x ∧ wheelFree s.level_2 x ∧
    wheelFree s.level_3 x

/-! ## Basic lemmas about the wheel operations -/

theorem TimingWheel.schedule_current_tick (w : TimingWheel) (o t x : ℕ) :
    (w.schedule o t x).current_tick = w.current_tick := rfl

theorem TimingWheel.schedule_ring_length (w : TimingWheel) (o t x : ℕ) :
    (w.schedule o t x).ring.length = w.ring.length := by
  simp [TimingWheel.schedule]

theorem cascadeInto_cons (w : TimingWheel) (p : ℕ × ℕ) (l : List (ℕ × ℕ)) :
    cascadeInto w (p :: l) = cascadeInto (w.schedule (p.1 + 1) p.1 p.2) l := rfl

theorem cascadeInto_current_tick (l : List (ℕ × ℕ)) (w : TimingWheel) :
    (cascadeInto w l).current_tick = w.current_tick := by
  induction l generalizing w with
  | nil => rfl
  | cons p l ih => rw [cascadeInto_cons, ih, TimingWheel.schedule_current_tick]

theorem cascadeInto_ring_length (l : List (ℕ × ℕ)) (w : TimingWheel) :
    (cascadeInto w l).ring.length = w.ring.length := by
  induction l generalizing w with
  | nil => rfl
  | cons p l ih => rw [cascadeInto_cons, ih, TimingWheel.schedule_ring_length]

theorem TimingWheel.schedule_wf (w : TimingWheel) (o t x : ℕ) (h : w.wf) :
    (w.schedule o t x).wf :=
  ⟨by rw [TimingWheel.schedule_current_tick]; exact h.1,
   by rw [TimingWheel.schedule_ring_length]; exact h.2⟩

theorem cascadeInto_wf (l : List (ℕ × ℕ)) (w : TimingWheel) (h : w.wf) :
    (cascadeInto w l).wf :=
  ⟨by rw [cascadeInto_current_tick]; exact h.1,
   by rw [cascadeInto_ring_length]; exact h.2⟩

theorem TimingWheel.tick_snd_wf (w : TimingWheel) (h : w.wf) :
    (w.tick).2.wf := by
  refine ⟨?_, ?_⟩
  · show (w.current_tick + 1) % MAX_INTERVAL < MAX_INTERVAL
    exact Nat.mod_lt _ (by decide)
  · show (w.ring.set w.current_tick []).length = MAX_INTERVAL
    rw [List.length_set]; exact h.2

/-! ## Bit length and the level computation -/

theorem bitlenAux_le_of_lt : ∀ fuel k n : ℕ, n < 2 ^ k → bitlenAux fuel n ≤ k := by
  intro fuel
  induction fuel with
  | zero => intro k n _; exact Nat.zero_le k
  | succ fuel ih =>
      intro k n h
      unfold bitlenAux
      by_cases hn : n = 0
      · simp [hn]
      · simp only [hn, if_false]
        cases k with
        | zero => omega
        | succ k =>
            have h2 : n < 2 ^ k * 2 := by rw [← pow_succ]; exact h
            have : n / 2 < 2 ^ k := by omega
            exact Nat.succ_le_succ (ih k (n / 2) this)

theorem le_bitlenAux : ∀ fuel k n : ℕ, 2 ^ k ≤ n → n < 2 ^ fuel → k + 1 ≤ bitlenAux fuel n := by
  intro fuel
  induction fuel with
  | zero =>
      intro k n hk hf
      have : 1 ≤ 2 ^ k := Nat.one_le_two_pow
      omega
  | succ fuel ih =>
      intro k n hk hf
      have hn : n ≠ 0 := by have : 1 ≤ 2 ^ k := Nat.one_le_two_pow; omega
      unfold bitlenAux
      simp only [hn, if_false]
      cases k with
      | zero => omega
      | succ k =>
          have h1 : 2 ^ k * 2 ≤ n := by rw [← pow_succ]; exact hk
          have h2 : n < 2 ^ fuel * 2 := by rw [← pow_succ]; exact hf
          have h3 : 2 ^ k ≤ n / 2 := by omega
          have h4 : n / 2 < 2 ^ fuel := by omega
          exact Nat.succ_le_succ (ih (k + 1 - 1) (n / 2) h3 h4)

/-- For `usize` values the fuelled bit length agrees with Mathlib's
`Nat.size`. -/
theorem bitlen_eq_size (n : ℕ) (h : n < 2 ^ 64) : bitlen n = Nat.size n := by
  refine Nat.le_antisymm ?_ ?_
  · exact bitlenAux_le_of_lt 64 (Nat.size n) n (Nat.lt_size_self n)
  · rcases Nat.eq_zero_or_pos n with hn | hn
    · subst hn; simp [bitlen, bitlenAux]
    · have hpos : 0 < Nat.size n := Nat.size_pos.2 hn
      have hlow : 2 ^ (Nat.size n - 1) ≤ n := Nat.lt_size.1 (by omega)
      have := le_bitlenAux 64 (Nat.size n - 1) n hlow h
      unfold bitlen
      omega

theorem bitlen_le_64 (n : ℕ) (h : n < 2 ^ 64) : bitlen n ≤ 64 :=
  bitlenAux_le_of_lt 64 64 n h

theorem bitlen_pos (n : ℕ) (h : 0 < n) (h64 : n < 2 ^ 64) : 0 < bitlen n := by
  have := le_bitlenAux 64 0 n (by simpa using h) h64
  unfold bitlen
  omega

/-- The code's level expression in terms of `Nat.size`. -/
theorem levelOf_eq_size (n : ℕ) (h0 : 0 < n) (h64 : n < 2 ^ 64) :
    levelOf n = (Nat.size n - 1) / 6 := by
  have hb : bitlen n = Nat.size n := bitlen_eq_size n h64
  have hle : bitlen n ≤ 64 := bitlen_le_64 n h64
  have hpos : 0 < bitlen n := bitlen_pos n h0 h64
  unfold levelOf leadingZeros64
  simp only [Nat.pos_iff_ne_zero.1 h0, if_false]
  rw [hb] at hle hpos ⊢
  congr 1
  omega

/-- Size bounds packaged for range reasoning: for `2 ^ a ≤ n < 2 ^ b`,
`a < Nat.size n ≤ b`. -/
theorem size_range {n a b : ℕ} (hlo : 2 ^ a ≤ n) (hhi : n < 2 ^ b) :
    a < Nat.size n ∧ Nat.size n ≤ b :=
  ⟨Nat.lt_size.2 hlo, Nat.size_le.2 hhi⟩

theorem levelOf_zero : levelOf 0 = 0 := rfl

theorem levelOf_range0 (d : ℕ) (h1 : 0 < d) (h2 : d < 64) : levelOf d = 0 := by
  rw [levelOf_eq_size d h1 (by omega)]
  obtain ⟨ha, hb⟩ := size_range (n := d) (a := 0) (b := 6) (by omega) (by norm_num; omega)
  omega

theorem levelOf_range1 (d : ℕ) (h1 : 64 ≤ d) (h2 : d < 4096) : levelOf d = 1 := by
  rw [levelOf_eq_size d (by omega) (by norm_num; omega)]
  obtain ⟨ha, hb⟩ := size_range (n := d) (a := 6) (b := 12) (by norm_num; omega) (by norm_num; omega)
  omega

theorem levelOf_range2 (d : ℕ) (h1 : 4096 ≤ d) (h2 : d < 262144) : levelOf d = 2 := by
  rw [levelOf_eq_size d (by omega) (by norm_num; omega)]
  obtain ⟨ha, hb⟩ := size_range (n := d) (a := 12) (b := 18) (by norm_num; omega) (by norm_num; omega)
  omega

theorem levelOf_range3 (d : ℕ) (h1 : 262144 ≤ d) (h2 : d < 16777216) : levelOf d = 3 := by
  rw [levelOf_eq_size d (by omega) (by norm_num; omega)]
  obtain ⟨ha, hb⟩ := size_range (n := d) (a := 18) (b := 24) (by norm_num; omega) (by norm_num; omega)
  omega

theorem levelOf_ge4 (d : ℕ) (h1 : 16777216 ≤ d) (h64 : d < 2 ^ 64) : 4 ≤ levelOf d := by
  rw [levelOf_eq_size d (by omega) h64]
  have ha : 24 < Nat.size d := Nat.lt_size.2 (by norm_num; omega)
  omega

theorem Timers.after_of_level0 (s : Timers) (d t : ℕ) (h : levelOf d = 0) :
    s.after d t = some { s with level_0 := s.level_0.schedule d d t } := by
  unfold Timers.after
  rw [h]

theorem Timers.after_of_level1 (s : Timers) (d t : ℕ) (h : levelOf d = 1) :
    s.after d t = some { s with level_1 := s.level_1.schedule (d >>> (6 - 1)) d t } := by
  unfold Timers.after
  rw [h]

theorem Timers.after_of_level2 (s : Timers) (d t : ℕ) (h : levelOf d = 2) :
    s.after d t = some { s with level_2 := s.level_2.schedule (d >>> (12 - 1)) d t } := by
  unfold Timers.after
  rw [h]

theorem Timers.after_of_level3 (s : Timers) (d t : ℕ) (h : levelOf d = 3) :
    s.after d t = some { s with level_3 := s.level_3.schedule (d >>> (18 - 1)) d t } := by
  unfold Timers.after
  rw [h]

theorem Timers.after_none_of_level_ge4 (s : Timers) (d t : ℕ) (h : 4 ≤ levelOf d) :
    s.after d t = none := by
  obtain ⟨k, hk⟩ : ∃ k, levelOf d = k + 4 := ⟨levelOf d - 4, by omega⟩
  unfold Timers.after
  rw [hk]
  rfl

theorem Timers.after_isSome_of_lt (s : Timers) (d t : ℕ) (h : d < 16777216) :
    (s.after d t).isSome := by
  rcases Nat.eq_zero_or_pos d with h0 | h0
  · subst h0; rw [Timers.after_of_level0 s 0 t rfl]; rfl
  rcases Nat.lt_or_ge d 64 with h1 | h1
  · rw [Timers.after_of_level0 s d t (levelOf_range0 d h0 h1)]; rfl
  rcases Nat.lt_or_ge d 4096 with h2 | h2
  · rw [Timers.after_of_level1 s d t (levelOf_range1 d h1 h2)]; rfl
  rcases Nat.lt_or_ge d 262144 with h3 | h3
  · rw [Timers.after_of_level2 s d t (levelOf_range2 d h2 h3)]; rfl
  · rw [Timers.after_of_level3 s d t (levelOf_range3 d h3 h)]; rfl

/-! ## Cursor dynamics of `Timers::tick` -/

theorem Timers.tick_cursor0 (s : Timers) :
    (s.tick).2.level_0.current_tick = (s.level_0.current_tick + 1) % MAX_INTERVAL := by
  unfold Timers.tick
  by_cases h0 : s.level_0.current_tick = 63 <;>
    by_cases h1 : s.level_1.current_tick = 63 <;>
      by_cases h2 : s.level_2.current_tick = 63 <;>
        simp [h0, h1, h2, TimingWheel.tick, cascadeInto_current_tick]

theorem Timers.tick_cursor1 (s : Timers) :
    (s.tick).2.level_1.current_tick =
      if s.level_0.current_tick = 63 then (s.level_1.current_tick + 1) % MAX_INTERVAL
      else s.level_1.current_tick := by
  unfold Timers.tick
  by_cases h0 : s.level_0.current_tick = 63 <;>
    by_cases h1 : s.level_1.current_tick = 63 <;>
      by_cases h2 : s.level_2.current_tick = 63 <;>
        simp [h0, h1, h2, TimingWheel.tick, cascadeInto_current_tick]

theorem Timers.tick_cursor2 (s : Timers) :
    (s.tick).2.level_2.current_tick =
      if s.level_0.current_tick = 63 ∧ s.level_1.current_tick = 63 then
        (s.level_2.current_tick + 1) % MAX_INTERVAL
      else s.level_2.current_tick := by
  unfold Timers.tick
  by_cases h0 : s.level_0.current_tick = 63 <;>
    by_cases h1 : s.level_1.current_tick = 63 <;>
      by_cases h2 : s.level_2.current_tick = 63 <;>
        simp [h0, h1, h2, TimingWheel.tick, cascadeInto_current_tick]

theorem Timers.tick_cursor3 (s : Timers) :
    (s.tick).2.level_3.current_tick =
      if s.level_0.current_tick = 63 ∧ s.level_1.current_tick = 63 ∧
          s.level_2.current_tick = 63 then
        (s.level_3.current_tick + 1) % MAX_INTERVAL
      else s.level_3.current_tick := by
  unfold Timers.tick
  by_cases h0 : s.level_0.current_tick = 63 <;>
    by_cases h1 : s.level_1.current_tick = 63 <;>
      by_cases h2 : s.level_2.current_tick = 63 <;>
        simp [h0, h1, h2, TimingWheel.tick, cascadeInto_current_tick]

theorem Timers.tick_wf (s : Timers) (h : s.wf) : (s.tick).2.wf := by
  obtain ⟨hw0, hw1, hw2, hw3⟩ := h
  unfold Timers.tick
  by_cases h0 : s.level_0.current_tick = 63 <;>
    by_cases h1 : s.level_1.current_tick = 63 <;>
      by_cases h2 : s.level_2.current_tick = 63 <;>
        · simp only [h0, h1, h2, if_true, if_false, and_true, and_false, if_pos, if_neg,
            not_false_iff, Timers.wf]
          refine ⟨?_, ?_, ?_, ?_⟩ <;>
            first
              | exact TimingWheel.tick_snd_wf _ (by
                  first
                    | exact hw0
                    | exact cascadeInto_wf _ _ hw0
                    | exact cascadeInto_wf _ _ hw1
                    | exact cascadeInto_wf _ _ hw2)
              | exact cascadeInto_wf _ _ hw0
              | exact cascadeInto_wf _ _ hw1
              | exact cascadeInto_wf _ _ hw2
              | exact TimingWheel.tick_snd_wf _ hw1
              | exact TimingWheel.tick_snd_wf _ hw2
              | exact TimingWheel.tick_snd_wf _ hw3
              | exact hw0
              | exact hw1
              | exact hw2
              | exact hw3

theorem Timers.tickN_succ (s : Timers) (n : ℕ) :
    s.tickN (n + 1) = (Timers.tick (s.tickN n)).2 := rfl

/-- The level-0 cursor advances by one (mod 64) on every call, from any
state. -/
theorem Timers.tickN_cursor0 (s : Timers) (j : ℕ)
    (h : s.level_0.current_tick < MAX_INTERVAL) :
    (s.tickN j).level_0.current_tick = (s.level_0.current_tick + j) % MAX_INTERVAL := by
  unfold MAX_INTERVAL at h
  induction j with
  | zero =>
      show s.level_0.current_tick = _
      unfold MAX_INTERVAL
      omega
  | succ j ih =>
      rw [Timers.tickN_succ, Timers.tick_cursor0, ih]
      unfold MAX_INTERVAL
      omega

/-- Claim C7: starting from a state whose four cursors are all 0, after `n`
calls of `Timers::tick` the four cursors are the four base-64 digits of
`n` (equivalently of `n mod 64 ^ 4`), least significant digit at level 0;
consequently after exactly 64 calls the level-0 cursor is back at its
initial position and the level-1 cursor has advanced (the level-1 wheel has
been drained by a cascade) exactly once. -/
theorem C7_cursor_digits (s : Timers) (n : ℕ)
    (h0 : s.level_0.current_tick = 0) (h1 : s.level_1.current_tick = 0)
    (h2 : s.level_2.current_tick = 0) (h3 : s.level_3.current_tick = 0) :
    ((s.tickN n).level_0.current_tick = n % 64 ∧
     (s.tickN n).level_1.current_tick = n / 64 % 64 ∧
     (s.tickN n).level_2.current_tick = n / 64 ^ 2 % 64 ∧
     (s.tickN n).level_3.current_tick = n / 64 ^ 3 % 64) ∧
    (s.tickN 64).level_0.current_tick = s.level_0.current_tick ∧
    (s.tickN 64).level_1.current_tick = s.level_1.current_tick + 1 := by
  have main : ∀ m : ℕ,
      (s.tickN m).level_0.current_tick = m % 64 ∧
      (s.tickN m).level_1.current_tick = m / 64 % 64 ∧
      (s.tickN m).level_2.current_tick = m / 4096 % 64 ∧
      (s.tickN m).level_3.current_tick = m / 262144 % 64 := by
    intro m
    induction m with
    | zero => exact ⟨h0, h1, h2, h3⟩
    | succ m ih =>
        obtain ⟨i0, i1, i2, i3⟩ := ih
        have c0 := Timers.tick_cursor0 (s.tickN m)
        have c1 := Timers.tick_cursor1 (s.tickN m)
        have c2 := Timers.tick_cursor2 (s.tickN m)
        have c3 := Timers.tick_cursor3 (s.tickN m)
        rw [i0] at c0
        rw [i0, i1] at c1
        rw [i0, i1, i2] at c2
        rw [i0, i1, i2, i3] at c3
        unfold MAX_INTERVAL at c0 c1 c2 c3
        rw [Timers.tickN_succ]
        refine ⟨?_, ?_, ?_, ?_⟩
        · rw [c0]; omega
        · rw [c1]
          by_cases hc : m % 64 = 63
          · rw [if_pos hc]; omega
          · rw [if_neg hc]; omega
        · rw [c2]
          by_cases hc : m % 64 = 63 ∧ m / 64 % 64 = 63
          · rw [if_pos hc]; omega
          · rw [if_neg hc]; omega
        · rw [c3]
          by_cases hc : m % 64 = 63 ∧ m / 64 % 64 = 63 ∧ m / 4096 % 64 = 63
          · rw [if_pos hc]; omega
          · rw [if_neg hc]; omega
  refine ⟨?_, ?_, ?_⟩
  · have := main n
    norm_num at this ⊢
    exact this
  · rw [(main 64).1, h0]
  · rw [(main 64).2.1, h1]

/-- Witness for C7 at the freshly created scheduler and `n = 130`. -/
theorem C7_cursor_digits_witness :
    ((Timers.init.tickN 130).level_0.current_tick = 130 % 64 ∧
     (Timers.init.tickN 130).level_1.current_tick = 130 / 64 % 64 ∧
     (Timers.init.tickN 130).level_2.current_tick = 130 / 64 ^ 2 % 64 ∧
     (Timers.init.tickN 130).level_3.current_tick = 130 / 64 ^ 3 % 64) ∧
    (Timers.init.tickN 64).level_0.current_tick = Timers.init.level_0.current_tick ∧
    (Timers.init.tickN 64).level_1.current_tick = Timers.init.level_1.current_tick + 1 :=
  C7_cursor_digits Timers.init 130 rfl rfl rfl rfl

/-- Claim C8: `TimingWheel::tick` returns exactly the sequence stored in the
slot at `current_tick` (empty if nothing was scheduled there), leaves that
slot empty, advances `current_tick` by one modulo 64, and leaves all other
slots unchanged. -/
theorem C8_wheel_tick_spec (w : TimingWheel) (h : w.wf) :
    (w.tick).1 = w.ring.getD w.current_tick [] ∧
    (w.tick).2.current_tick = (w.current_tick + 1) % MAX_INTERVAL ∧
    (w.tick).2.ring.getD w.current_tick [] = [] ∧
    ∀ i, i ≠ w.current_tick → (w.tick).2.ring.getD i [] = w.ring.getD i [] := by
  refine ⟨rfl, rfl, ?_, ?_⟩
  · show (w.ring.set w.current_tick []).getD w.current_tick [] = []
    have hlt : w.current_tick < w.ring.length := by rw [h.2]; exact h.1
    rw [List.getD_eq_getElem?_getD, List.getElem?_set_self hlt]
    rfl
  · intro i hi
    show (w.ring.set w.current_tick []).getD i [] = w.ring.getD i []
    rw [List.getD_eq_getElem?_getD, List.getElem?_set_ne (Ne.symm hi),
      ← List.getD_eq_getElem?_getD]

/-- Witness for C8 at the default (fresh) wheel. -/
theorem C8_wheel_tick_spec_witness :
    TimingWheel.mkDefault.wf ∧
    ((TimingWheel.mkDefault.tick).1 =
        TimingWheel.mkDefault.ring.getD TimingWheel.mkDefault.current_tick [] ∧
     (TimingWheel.mkDefault.tick).2.current_tick =
        (TimingWheel.mkDefault.current_tick + 1) % MAX_INTERVAL ∧
     (TimingWheel.mkDefault.tick).2.ring.getD TimingWheel.mkDefault.current_tick [] = [] ∧
     ∀ i, i ≠ TimingWheel.mkDefault.current_tick →
        (TimingWheel.mkDefault.tick).2.ring.getD i [] =
          TimingWheel.mkDefault.ring.getD i []) :=
  ⟨by decide, C8_wheel_tick_spec TimingWheel.mkDefault (by decide)⟩

/-- Claim C9: `TimingWheel::schedule` performs no range check: for every
offset it appends the payload to the slot at `(current_tick + offset) % 64`
and never fails, so an offset `o` behaves exactly like `o % 64`. -/
theorem C9_schedule_alias (w : TimingWheel) (o t x : ℕ) :
    w.schedule o t x = w.schedule (o % MAX_INTERVAL) t x ∧
    (w.schedule o t x).ring =
      w.ring.set ((w.current_tick + o) % MAX_INTERVAL)
        (w.ring.getD ((w.current_tick + o) % MAX_INTERVAL) [] ++ [(t, x)]) ∧
    (w.schedule o t x).current_tick = w.current_tick := by
  refine ⟨?_, rfl, rfl⟩
  simp only [TimingWheel.schedule, Nat.add_mod_mod]

/-- Claim C3: scheduling with delay `64 ^ 4 - 1` succeeds; any delay at or
beyond `64 ^ 4` (within `usize` range) is rejected outright — `after`
returns no successor state (the `panic!` arm), never a clamped one. -/
theorem C3_capacity (s : Timers) (t d : ℕ) (hd : d < 2 ^ 64) :
    (s.after (64 ^ 4 - 1) t).isSome ∧
    (64 ^ 4 ≤ d → s.after d t = none) ∧
    (d < 64 ^ 4 → (s.after d t).isSome) := by
  refine ⟨Timers.after_isSome_of_lt s _ t (by norm_num), ?_, ?_⟩
  · intro hge
    refine Timers.after_none_of_level_ge4 s d t (levelOf_ge4 d ?_ hd)
    norm_num at hge
    omega
  · intro hlt
    refine Timers.after_isSome_of_lt s d t ?_
    norm_num at hlt
    omega

/-- Witness for C3 at `d = 64 ^ 4` on the fresh scheduler. -/
theorem C3_capacity_witness :
    (Timers.init.after (64 ^ 4 - 1) 0).isSome ∧
    (64 ^ 4 ≤ 16777216 → Timers.init.after 16777216 0 = none) ∧
    (16777216 < 64 ^ 4 → (Timers.init.after 16777216 0).isSome) :=
  C3_capacity Timers.init 0 16777216 (by norm_num)

/-- Claim C4: `Timers::after` routes delay 0 and delays in `[1, 63]` to the
level-0 wheel, `[64, 4095]` to level 1, `[4096, 262143]` to level 2 and
`[262144, 16777215]` to level 3 (with the offsets the code computes). -/
theorem C4_routing (s : Timers) (d t : ℕ) :
    (d < 64 → s.after d t = some { s with level_0 := s.level_0.schedule d d t }) ∧
    (64 ≤ d → d < 4096 →
      s.after d t = some { s with level_1 := s.level_1.schedule (d >>> (6 - 1)) d t }) ∧
    (4096 ≤ d → d < 262144 →
      s.after d t = some { s with level_2 := s.level_2.schedule (d >>> (12 - 1)) d t }) ∧
    (262144 ≤ d → d < 16777216 →
      s.after d t = some { s with level_3 := s.level_3.schedule (d >>> (18 - 1)) d t }) := by
  refine ⟨?_, ?_, ?_, ?_⟩
  · intro h1
    rcases Nat.eq_zero_or_pos d with h0 | h0
    · subst h0; exact Timers.after_of_level0 s 0 t rfl
    · exact Timers.after_of_level0 s d t (levelOf_range0 d h0 h1)
  · intro h1 h2
    exact Timers.after_of_level1 s d t (levelOf_range1 d h1 h2)
  · intro h1 h2
    exact Timers.after_of_level2 s d t (levelOf_range2 d h1 h2)
  · intro h1 h2
    exact Timers.after_of_level3 s d t (levelOf_range3 d h1 h2)

/-- Witness for C4 at delay 100: the timer goes to the level-1 wheel. -/
theorem C4_routing_witness :
    Timers.init.after 100 0 =
      some { Timers.init with
              level_1 := Timers.init.level_1.schedule (100 >>> (6 - 1)) 100 0 } :=
  (C4_routing Timers.init 100 0).2.1 (by norm_num) (by norm_num)

/-- Claim C5 fails at `D = 63`: the spec formula `floor(bitlength(D) / 6)`
gives level 1 there (`bitlength 63 = 6`), but the code places delay 63 in
the level-0 wheel and leaves the level-1 wheel untouched. -/
theorem C5_counterexample :
    bitlength 63 / 6 = 1 ∧
    (Timers.init.after 63 0).map Timers.level_1 = some Timers.init.level_1 ∧
    (Timers.init.after 63 0).map Timers.level_0 ≠ some Timers.init.level_0 := by
  refine ⟨?_, by decide, by decide⟩
  have h6 : Nat.size 63 = 6 :=
    Nat.le_antisymm (Nat.size_le.2 (by norm_num)) (Nat.lt_size.2 (by norm_num))
  rw [bitlength, h6]

/-- Claim C5 amended: for `0 < D < 64 ^ 4` the code routes to level
`floor((bitlength(D) - 1) / 6)` — the position of the most significant set
bit divided by 6 — and to level 0 for `D = 0`. -/
theorem C5_amended_level_formula (d : ℕ) (h1 : 0 < d) (h2 : d < 64 ^ 4) :
    levelOf d = (bitlength d - 1) / 6 ∧ levelOf 0 = 0 := by
  refine ⟨?_, rfl⟩
  rw [bitlength]
  exact levelOf_eq_size d h1 (by norm_num at h2; omega)

/-- Witness for the amended C5 at `D = 100`. -/
theorem C5_amended_level_formula_witness :
    levelOf 100 = (bitlength 100 - 1) / 6 ∧ levelOf 0 = 0 :=
  C5_amended_level_formula 100 (by norm_num) (by norm_num)

theorem Timers.after_wf (s : Timers) (d t : ℕ) (s' : Timers) (h : s.wf)
    (he : s.after d t = some s') : s'.wf := by
  obtain ⟨h0, h1, h2, h3⟩ := h
  unfold Timers.after at he
  split at he <;>
    first
      | (injection he with he
         subst he
         first
           | exact ⟨TimingWheel.schedule_wf _ _ _ _ h0, h1, h2, h3⟩
           | exact ⟨h0, TimingWheel.schedule_wf _ _ _ _ h1, h2, h3⟩
           | exact ⟨h0, h1, TimingWheel.schedule_wf _ _ _ _ h2, h3⟩
           | exact ⟨h0, h1, h2, TimingWheel.schedule_wf _ _ _ _ h3⟩)
      | cases he

/-- Claim C10: from any well-formed state, `Timers::tick` and
`Timers::after` with in-range delay are total and preserve well-formedness
(every ring index stays below 64 and the ring keeps its 64 slots); the only
failure in the interface is the deliberate rejection of delays `≥ 64 ^ 4`. -/
theorem C10_safety (s : Timers) (h : s.wf) :
    (∀ d t, d < 64 ^ 4 → ∃ s', s.after d t = some s' ∧ s'.wf) ∧
    (s.tick).2.wf ∧
    (∀ d t, d < 2 ^ 64 → (s.after d t = none ↔ 64 ^ 4 ≤ d)) := by
  refine ⟨?_, Timers.tick_wf s h, ?_⟩
  · intro d t hd
    have hs : (s.after d t).isSome :=
      Timers.after_isSome_of_lt s d t (by norm_num at hd; omega)
    obtain ⟨s', hs'⟩ := Option.isSome_iff_exists.1 hs
    exact ⟨s', hs', Timers.after_wf s d t s' ⟨h.1, h.2.1, h.2.2.1, h.2.2.2⟩ hs'⟩
  · intro d t hd
    constructor
    · intro hn
      by_contra hlt
      have := Timers.after_isSome_of_lt s d t (by norm_num at hlt ⊢; omega)
      rw [hn] at this
      cases this
    · intro hge
      refine Timers.after_none_of_level_ge4 s d t (levelOf_ge4 d ?_ hd)
      norm_num at hge
      omega

/-- Witness for C10 at the fresh scheduler. -/
theorem C10_safety_witness :
    (∀ d t, d < 64 ^ 4 → ∃ s', Timers.init.after d t = some s' ∧ s'.wf) ∧
    ((Timers.init.tick).2.wf) ∧
    (∀ d t, d < 2 ^ 64 → (Timers.init.after d t = none ↔ 64 ^ 4 ≤ d)) :=
  C10_safety Timers.init (by decide)

theorem getD_set_of_ne {α : Type} (l : List α) (i j : ℕ) (a d : α) (h : i ≠ j) :
    (l.set i a).getD j d = l.getD j d := by
  rw [List.getD_eq_getElem?_getD, List.getElem?_set_ne h, ← List.getD_eq_getElem?_getD]

theorem getD_set_self {α : Type} (l : List α) (i : ℕ) (a d : α) (h : i < l.length) :
    (l.set i a).getD i d = a := by
  rw [List.getD_eq_getElem?_getD, List.getElem?_set_self h]
  rfl

theorem slotFree_nil (x : ℕ) : slotFree [] x := by
  intro p hp
  cases hp

theorem slotFree_append {sl sl' : List (ℕ × ℕ)} {x : ℕ}
    (h1 : slotFree sl x) (h2 : slotFree sl' x) : slotFree (sl ++ sl') x := by
  intro p hp
  rcases List.mem_append.1 hp with hm | hm
  · exact h1 p hm
  · exact h2 p hm

/-- `wheelFree` in terms of `getD`-indexed slots. -/
theorem wheelFree_iff (w : TimingWheel) (x : ℕ) :
    wheelFree w x ↔ ∀ i, slotFree (w.ring.getD i []) x := by
  constructor
  · intro h i
    rcases Nat.lt_or_ge i w.ring.length with hi | hi
    · have heq : w.ring.getD i [] = w.ring[i] := by
        rw [List.getD_eq_getElem?_getD, List.getElem?_eq_getElem hi]
        rfl
      rw [heq]
      exact h _ (List.getElem_mem hi)
    · rw [List.getD_eq_getElem?_getD, List.getElem?_eq_none hi]
      exact slotFree_nil x
  · intro h sl hsl
    obtain ⟨i, hi, heq⟩ := List.mem_iff_getElem.1 hsl
    have : w.ring.getD i [] = sl := by
      rw [List.getD_eq_getElem?_getD, List.getElem?_eq_getElem hi, heq]
      rfl
    rw [← this]
    exact h i

/-- Appending a non-`x` entry anywhere preserves `wheelFree`. -/
theorem wheelFree_schedule (w : TimingWheel) (o t y x : ℕ) (hy : y ≠ x)
    (h : wheelFree w x) : wheelFree (w.schedule o t y) x := by
  rw [wheelFree_iff] at h ⊢
  intro i
  show slotFree ((w.ring.set _ _).getD i []) x
  by_cases hi : (w.current_tick + o) % MAX_INTERVAL = i
  · subst hi
    rcases Nat.lt_or_ge ((w.current_tick + o) % MAX_INTERVAL) w.ring.length with hb | hb
    · rw [getD_set_self _ _ _ _ hb]
      refine slotFree_append (h _) ?_
      intro p hp
      rw [List.mem_singleton.1 hp]
      exact hy
    · rw [List.set_eq_of_length_le hb]
      exact h _
  · rw [getD_set_of_ne _ _ _ _ _ hi]
    exact h _

/-- Appending a non-`x` entry preserves `wheelOnlyAt`. -/
theorem wheelOnlyAt_schedule (w : TimingWheel) (o t y x m : ℕ) (hy : y ≠ x)
    (h : wheelOnlyAt w x m) : wheelOnlyAt (w.schedule o t y) x m := by
  obtain ⟨⟨p, hp, hpx⟩, hrest⟩ := h
  constructor
  · show ∃ q ∈ (w.ring.set _ _).getD m [], q.2 = x
    by_cases hi : (w.current_tick + o) % MAX_INTERVAL = m
    · subst hi
      rcases Nat.lt_or_ge ((w.current_tick + o) % MAX_INTERVAL) w.ring.length with hb | hb
      · rw [getD_set_self _ _ _ _ hb]
        exact ⟨p, List.mem_append_left _ hp, hpx⟩
      · rw [List.set_eq_of_length_le hb]
        exact ⟨p, hp, hpx⟩
    · rw [getD_set_of_ne _ _ _ _ _ hi]
      exact ⟨p, hp, hpx⟩
  · intro i him
    show slotFree ((w.ring.set _ _).getD i []) x
    by_cases hi : (w.current_tick + o) % MAX_INTERVAL = i
    · subst hi
      rcases Nat.lt_or_ge ((w.current_tick + o) % MAX_INTERVAL) w.ring.length with hb | hb
      · rw [getD_set_self _ _ _ _ hb]
        refine slotFree_append (hrest _ him) ?_
        intro q hq
        rw [List.mem_singleton.1 hq]
        exact hy
      · rw [List.set_eq_of_length_le hb]
        exact hrest _ him
    · rw [getD_set_of_ne _ _ _ _ _ hi]
      exact hrest _ him

theorem wheelFree_cascadeInto (items : List (ℕ × ℕ)) (w : TimingWheel) (x : ℕ)
    (hi : slotFree items x) (h : wheelFree w x) : wheelFree (cascadeInto w items) x := by
  induction items generalizing w with
  | nil => exact h
  | cons p l ih =>
      rw [cascadeInto_cons]
      exact ih _ (fun q hq => hi q (List.mem_cons_of_mem p hq))
        (wheelFree_schedule _ _ _ _ _ (hi p (List.mem_cons_self p l)) h)

theorem wheelOnlyAt_cascadeInto (items : List (ℕ × ℕ)) (w : TimingWheel) (x m : ℕ)
    (hi : slotFree items x) (h : wheelOnlyAt w x m) :
    wheelOnlyAt (cascadeInto w items) x m := by
  induction items generalizing w with
  | nil => exact h
  | cons p l ih =>
      rw [cascadeInto_cons]
      exact ih _ (fun q hq => hi q (List.mem_cons_of_mem p hq))
        (wheelOnlyAt_schedule _ _ _ _ _ _ (hi p (List.mem_cons_self p l)) h)

/-- Draining a wheel containing no `x` yields an `x`-free slot and wheel. -/
theorem wheelFree_tick (w : TimingWheel) (x : ℕ) (h : wheelFree w x) :
    slotFree (w.tick).1 x ∧ wheelFree (w.tick).2 x := by
  have h' := (wheelFree_iff w x).1 h
  constructor
  · exact h' w.current_tick
  · rw [wheelFree_iff]
    intro i
    show slotFree ((w.ring.set _ _).getD i []) x
    by_cases hi : w.current_tick = i
    · subst hi
      rcases Nat.lt_or_ge w.current_tick w.ring.length with hb | hb
      · rw [getD_set_self _ _ _ _ hb]
        exact slotFree_nil x
      · rw [List.set_eq_of_length_le hb]
        exact h' _
    · rw [getD_set_of_ne _ _ _ _ _ hi]
      exact h' _

/-- Draining a wheel whose only `x` sits at slot `m ≠ current_tick`. -/
theorem wheelOnlyAt_tick_ne (w : TimingWheel) (x m : ℕ) (h : wheelOnlyAt w x m)
    (hne : w.current_tick ≠ m) :
    slotFree (w.tick).1 x ∧ wheelOnlyAt (w.tick).2 x m := by
  obtain ⟨hpres, hrest⟩ := h
  constructor
  · exact hrest _ (fun he => hne he)
  · constructor
    · show ∃ q ∈ (w.ring.set _ _).getD m [], q.2 = x
      rw [getD_set_of_ne _ _ _ _ _ hne]
      exact hpres
    · intro i him
      show slotFree ((w.ring.set _ _).getD i []) x
      by_cases hi : w.current_tick = i
      · subst hi
        rcases Nat.lt_or_ge w.current_tick w.ring.length with hb | hb
        · rw [getD_set_self _ _ _ _ hb]
          exact slotFree_nil x
        · rw [List.set_eq_of_length_le hb]
          exact hrest _ him
      · rw [getD_set_of_ne _ _ _ _ _ hi]
        exact hrest _ him

/-- Draining a wheel at exactly the slot holding `x` returns `x`. -/
theorem wheelOnlyAt_tick_fire (w : TimingWheel) (x : ℕ) (h : wheelOnlyAt w x w.current_tick) :
    ∃ p ∈ (w.tick).1, p.2 = x := h.1

/-- One `Timers::tick` from a state whose only `x` sits in level-0 slot
`m ≠ current_tick`: nothing delivered is `x`, and `x` stays alone in slot
`m`. -/
theorem Timers.tick_onlyAt0 (s : Timers) (x m : ℕ) (h : onlyAt0 s x m)
    (hne : s.level_0.current_tick ≠ m) :
    (∀ r ∈ (s.tick).1, r ≠ x) ∧ onlyAt0 (s.tick).2 x m := by
  obtain ⟨h0only, hf1, hf2, hf3⟩ := h
  have fin : ∀ w : TimingWheel, wheelOnlyAt w x m → w.current_tick ≠ m →
      wheelFree (s.tick).2.level_1 x → wheelFree (s.tick).2.level_2 x →
      wheelFree (s.tick).2.level_3 x →
      (s.tick).1 = (w.tick).1.map Prod.snd → (s.tick).2.level_0 = (w.tick).2 →
      (∀ r ∈ (s.tick).1, r ≠ x) ∧ onlyAt0 (s.tick).2 x m := by
    intro w hw hwne g1 g2 g3 he1 he2
    obtain ⟨hfree, honly⟩ := wheelOnlyAt_tick_ne w x m hw hwne
    refine ⟨?_, ?_, g1, g2, g3⟩
    · intro r hr
      rw [he1] at hr
      obtain ⟨p, hp, hpr⟩ := List.mem_map.1 hr
      rw [← hpr]
      exact hfree p hp
    · rw [he2]
      exact honly
  by_cases hc0 : s.level_0.current_tick = 63
  · by_cases hc1 : s.level_1.current_tick = 63
    · by_cases hc2 : s.level_2.current_tick = 63
      · have f3 := wheelFree_tick s.level_3 x hf3
        have f2c := wheelFree_cascadeInto _ s.level_2 x f3.1 hf2
        have f2 := wheelFree_tick _ x f2c
        have f1c := wheelFree_cascadeInto _ s.level_1 x f2.1 hf1
        have f1 := wheelFree_tick _ x f1c
        have f0c := wheelOnlyAt_cascadeInto _ s.level_0 x m f1.1 h0only
        refine fin _ f0c (by rw [cascadeInto_current_tick]; exact hne) ?_ ?_ ?_ ?_ ?_
        · simp only [Timers.tick, hc0, hc1, hc2, if_true]
          exact f1.2
        · simp only [Timers.tick, hc0, hc1, hc2, if_true]
          exact f2.2
        · simp only [Timers.tick, hc0, hc1, hc2, if_true]
          exact f3.2
        · simp only [Timers.tick, hc0, hc1, hc2, if_true]
        · simp only [Timers.tick, hc0, hc1, hc2, if_true]
      · have f2 := wheelFree_tick s.level_2 x hf2
        have f1c := wheelFree_cascadeInto _ s.level_1 x f2.1 hf1
        have f1 := wheelFree_tick _ x f1c
        have f0c := wheelOnlyAt_cascadeInto _ s.level_0 x m f1.1 h0only
        refine fin _ f0c (by rw [cascadeInto_current_tick]; exact hne) ?_ ?_ ?_ ?_ ?_
        · simp only [Timers.tick, hc0, hc1, hc2, if_true, if_false]
          exact f1.2
        · simp only [Timers.tick, hc0, hc1, hc2, if_true, if_false]
          exact f2.2
        · simp only [Timers.tick, hc0, hc1, hc2, if_true, if_false]
          exact hf3
        · simp only [Timers.tick, hc0, hc1, hc2, if_true, if_false]
        · simp only [Timers.tick, hc0, hc1, hc2, if_true, if_false]
    · have f1 := wheelFree_tick s.level_1 x hf1
      have f0c := wheelOnlyAt_cascadeInto _ s.level_0 x m f1.1 h0only
      refine fin _ f0c (by rw [cascadeInto_current_tick]; exact hne) ?_ ?_ ?_ ?_ ?_
      · simp only [Timers.tick, hc0, hc1, if_true, if_false]
        exact f1.2
      · simp only [Timers.tick, hc0, hc1, if_true, if_false]
        exact hf2
      · simp only [Timers.tick, hc0, hc1, if_true, if_false]
        exact hf3
      · simp only [Timers.tick, hc0, hc1, if_true, if_false]
      · simp only [Timers.tick, hc0, hc1, if_true, if_false]
  · refine fin s.level_0 h0only hne ?_ ?_ ?_ ?_ ?_
    · simp only [Timers.tick, hc0, if_false]
      exact hf1
    · simp only [Timers.tick, hc0, if_false]
      exact hf2
    · simp only [Timers.tick, hc0, if_false]
      exact hf3
    · simp only [Timers.tick, hc0, if_false]
    · simp only [Timers.tick, hc0, if_false]

/-- One `Timers::tick` from a state whose only `x` sits in the level-0 slot
the cursor points at: `x` is among the returned timers. -/
theorem Timers.tick_onlyAt0_fire (s : Timers) (x : ℕ)
    (h : onlyAt0 s x s.level_0.current_tick) : x ∈ (s.tick).1 := by
  obtain ⟨h0only, hf1, hf2, hf3⟩ := h
  have fire : ∀ (w : TimingWheel) (m : ℕ), wheelOnlyAt w x m → w.current_tick = m →
      (s.tick).1 = (w.tick).1.map Prod.snd → x ∈ (s.tick).1 := by
    intro w m hw hm he
    obtain ⟨p, hp, hpx⟩ := hw.1
    rw [he]
    refine List.mem_map.2 ⟨p, ?_, hpx⟩
    show p ∈ w.ring.getD w.current_tick []
    rw [hm]
    exact hp
  by_cases hc0 : s.level_0.current_tick = 63
  · by_cases hc1 : s.level_1.current_tick = 63
    · by_cases hc2 : s.level_2.current_tick = 63
      · have f3 := wheelFree_tick s.level_3 x hf3
        have f2c := wheelFree_cascadeInto _ s.level_2 x f3.1 hf2
        have f2 := wheelFree_tick _ x f2c
        have f1c := wheelFree_cascadeInto _ s.level_1 x f2.1 hf1
        have f1 := wheelFree_tick _ x f1c
        have f0c := wheelOnlyAt_cascadeInto _ s.level_0 x _ f1.1 h0only
        refine fire _ _ f0c (cascadeInto_current_tick _ _) ?_
        simp only [Timers.tick, hc0, hc1, hc2, if_true]
      · have f2 := wheelFree_tick s.level_2 x hf2
        have f1c := wheelFree_cascadeInto _ s.level_1 x f2.1 hf1
        have f1 := wheelFree_tick _ x f1c
        have f0c := wheelOnlyAt_cascadeInto _ s.level_0 x _ f1.1 h0only
        refine fire _ _ f0c (cascadeInto_current_tick _ _) ?_
        simp only [Timers.tick, hc0, hc1, hc2, if_true, if_false]
    · have f1 := wheelFree_tick s.level_1 x hf1
      have f0c := wheelOnlyAt_cascadeInto _ s.level_0 x _ f1.1 h0only
      refine fire _ _ f0c (cascadeInto_current_tick _ _) ?_
      simp only [Timers.tick, hc0, hc1, if_true, if_false]
  · refine fire s.level_0 _ h0only rfl ?_
    simp only [Timers.tick, hc0, if_false]

theorem Timers.tickN_wf (s : Timers) (j : ℕ) (h : s.wf) : (s.tickN j).wf := by
  induction j with
  | zero => exact h
  | succ j ih => rw [Timers.tickN_succ]; exact Timers.tick_wf _ ih

/-- Running `j` ticks while the level-0 cursor never reaches slot `m`:
`x` stays alone in slot `m` and never appears in a result. -/
theorem Timers.run_onlyAt0 (x m : ℕ) :
    ∀ (j : ℕ) (s : Timers), s.wf → onlyAt0 s x m →
      (∀ i, i < j → (s.level_0.current_tick + i) % MAX_INTERVAL ≠ m) →
      onlyAt0 (s.tickN j) x m ∧
        ∀ k, 1 ≤ k → k ≤ j → ∀ r ∈ s.nthResult k, r ≠ x := by
  intro j
  induction j with
  | zero =>
      intro s _ honly _
      exact ⟨honly, fun k hk1 hk2 => by omega⟩
  | succ j ih =>
      intro s hwf honly hcur
      obtain ⟨o1, r1⟩ := ih s hwf honly (fun i hi => hcur i (by omega))
      have hcursor : (s.tickN j).level_0.current_tick =
          (s.level_0.current_tick + j) % MAX_INTERVAL :=
        Timers.tickN_cursor0 s j hwf.1.1
      have hne : (s.tickN j).level_0.current_tick ≠ m := by
        rw [hcursor]
        exact hcur j (by omega)
      have step := Timers.tick_onlyAt0 (s.tickN j) x m o1 hne
      refine ⟨?_, ?_⟩
      · rw [Timers.tickN_succ]
        exact step.2
      · intro k hk1 hk2
        rcases Nat.lt_or_ge k (j + 1) with hk | hk
        · exact r1 k hk1 (by omega)
        · have hkj : k = j + 1 := by omega
          subst hkj
          show ∀ r ∈ (Timers.tick (s.tickN (j + 1 - 1))).1, r ≠ x
          have hj : j + 1 - 1 = j := by omega
          rw [hj]
          exact step.1

/-- Claim C2: for every `d < 64` and from any well-formed scheduler state
not already containing the timer, `after d x` succeeds and the timer is
returned by the `(d+1)`-th `tick` call and by none of the earlier ones. -/
theorem C2_single_tick_delivery (s : Timers) (d x : ℕ) (hwf : s.wf)
    (hd : d < 64) (hx : timersFree s x) :
    ∃ s₁, s.after d x = some s₁ ∧
      x ∈ s₁.nthResult (d + 1) ∧
      ∀ k, 1 ≤ k → k ≤ d → ∀ r ∈ s₁.nthResult k, r ≠ x := by
  obtain ⟨hx0, hx1, hx2, hx3⟩ := hx
  refine ⟨{ s with level_0 := s.level_0.schedule d d x }, ?_, ?_⟩
  · rcases Nat.eq_zero_or_pos d with h0 | h0
    · subst h0
      exact Timers.after_of_level0 s 0 x rfl
    · exact Timers.after_of_level0 s d x (levelOf_range0 d h0 hd)
  have hidx : (s.level_0.current_tick + d) % MAX_INTERVAL < s.level_0.ring.length := by
    rw [hwf.1.2]
    exact Nat.mod_lt _ (by decide)
  have honly : onlyAt0 { s with level_0 := s.level_0.schedule d d x } x
      ((s.level_0.current_tick + d) % MAX_INTERVAL) := by
    refine ⟨⟨?_, ?_⟩, hx1, hx2, hx3⟩
    · show ∃ p ∈ (s.level_0.schedule d d x).ring.getD
          ((s.level_0.current_tick + d) % MAX_INTERVAL) [], p.2 = x
      simp only [TimingWheel.schedule]
      rw [getD_set_self _ _ _ _ hidx]
      exact ⟨(d, x), List.mem_append_right _ (List.mem_singleton_self _), rfl⟩
    · intro i hi
      show slotFree ((s.level_0.schedule d d x).ring.getD i []) x
      simp only [TimingWheel.schedule]
      rw [getD_set_of_ne _ _ _ _ _ (fun he => hi he.symm)]
      exact (wheelFree_iff s.level_0 x).1 hx0 i
  have hwf1 : Timers.wf { s with level_0 := s.level_0.schedule d d x } :=
    ⟨TimingWheel.schedule_wf _ _ _ _ hwf.1, hwf.2.1, hwf.2.2.1, hwf.2.2.2⟩
  have hcond : ∀ i, i < d →
      (({ s with level_0 := s.level_0.schedule d d x } : Timers).level_0.current_tick + i)
          % MAX_INTERVAL ≠ (s.level_0.current_tick + d) % MAX_INTERVAL := by
    intro i hi
    show (s.level_0.current_tick + i) % MAX_INTERVAL ≠ _
    have hc : s.level_0.current_tick < MAX_INTERVAL := hwf.1.1
    unfold MAX_INTERVAL at hc ⊢
    omega
  obtain ⟨ofin, rfree⟩ :=
    Timers.run_onlyAt0 x ((s.level_0.current_tick + d) % MAX_INTERVAL) d
      { s with level_0 := s.level_0.schedule d d x } hwf1 honly hcond
  refine ⟨?_, rfree⟩
  show x ∈ (Timers.tick (Timers.tickN _ (d + 1 - 1))).1
  have hd1 : d + 1 - 1 = d := by omega
  rw [hd1]
  refine Timers.tick_onlyAt0_fire _ x ?_
  have hcursor := Timers.tickN_cursor0
      { s with level_0 := s.level_0.schedule d d x } d hwf1.1.1
  rw [hcursor]
  exact ofin

/-- Witness for C2 on the fresh scheduler with `d = 5`, timer id 9. -/
theorem C2_single_tick_delivery_witness :
    ∃ s₁, Timers.init.after 5 9 = some s₁ ∧
      9 ∈ s₁.nthResult (5 + 1) ∧
      ∀ k, 1 ≤ k → k ≤ 5 → ∀ r ∈ s₁.nthResult k, r ≠ 9 :=
  C2_single_tick_delivery Timers.init 5 9 (by decide) (by decide) (by decide)

set_option maxHeartbeats 3200000 in
/-- Claim C6: scheduling three timers `a`, `b`, `c` in that order, each with
delay 5, on the fresh scheduler, the first five calls of `Timers::tick`
return nothing and the sixth returns exactly `[a, b, c]` — FIFO within the
slot, in the order the `after` calls were made. -/
theorem C6_fifo_within_tick (a b c : ℕ) :
    (((Timers.init.after 5 a).bind (fun s => s.after 5 b)).bind
        (fun s => s.after 5 c)).map (fun s3 => (s3.run 6).1) =
      some [[], [], [], [], [], [a, b, c]] := rfl

set_option maxRecDepth 100000 in
/-- Claim C1 is falsified by the code (code bug): a timer scheduled with
delay 100 on the fresh scheduler is not returned by the 101st tick (nor by
any of the first 292); it is returned only by the 293rd.  The level-1
offset is computed as `100 >> 5 = 3` (Rust parses `after >> 6 - 1` as
`after >> (6 - 1)`), so the entry sits in level-1 slot 3, cascades only at
call 256, and lands in level-0 slot 36, drained at call 293. -/
theorem C1_delay100_misdelivery :
    (Timers.init.after 100 7).map (fun s1 => (s1.run 293).1) =
      some (List.replicate 292 [] ++ [[7]]) := by decide
